import Mathlib

/-!
# Verification of the wreck keep-alive agent and payload plumbing

Shallow embedding of `lib/agent.js` (the custom keep-alive connection-pooling
agent), of `lib/tap.js` (the Tap pass-through transform), and of the redirect
method policy, together with proofs of the specified properties.

Modelling conventions:
* A JS socket object is a `Socket` value; mutation of its `_requestCount`
  field is explicit value update (`countRequest`), and object identity is
  tracked by the `id` field.
* The JS object `this._idleSockets` (keys are `host:port` names, values are
  arrays of sockets) is a function `String → Option (List Socket)`; `none`
  models an absent key, `some l` an array.  A JS array used as a stack
  (`push` appends at the end, `pop` removes from the end) is a `List` whose
  index 0 is the oldest entry; popping repeatedly from the end is scanning
  the reversed list front to back.
* `this.requests` (the pending request queue of the node base agent, read and
  shifted by `free`) is a function `String → List Nat`, requests being opaque
  ids; the empty list models an absent or empty entry (the two are
  observationally equal in every operation of the file).
* Calls delegated to the platform base class (`Http.Agent.prototype.addRequest`,
  `Http.Agent.prototype.removeSocket`) and socket hand-off
  (`request.onSocket(socket)`) are external effects, returned as `Dispatch`
  events rather than state changes.
-/

namespace Wreck

/-- The `pair` object of a (pre-TLS1-module) node TLS socket; its `ssl` field
is nulled out by `destroy()`, which is what `HttpsAgent.isSocketUsable`
checks.  `ssl : Option Unit` models presence of the field. -/
structure SecurePair where
  ssl : Option Unit
deriving DecidableEq, Repr

/-- A socket object, as far as `lib/agent.js` observes and mutates it:
`destroyed` flag (plain sockets), the `pair` object (TLS sockets), and the
`_requestCount` expando (absent until the first `free`).  `id` stands for JS
object identity. -/
structure Socket where
  id : Nat
  destroyed : Bool
  pair : Option SecurePair
  requestCount : Option Nat
deriving DecidableEq, Repr

/-- `internals.defaults` of `lib/agent.js`. -/
structure Defaults where
  keepAlive : Bool
  maxFreeSockets : Nat
deriving DecidableEq, Repr

/-- `internals.defaults = { keepAlive: true, maxFreeSockets: 256 }`. -/
def internalsDefaults : Defaults := { keepAlive := true, maxFreeSockets := 256 }

/-- `internals.HttpAgent.prototype.isSocketUsable = function (socket) {
return !socket.destroyed; }` -/
def HttpAgent.isSocketUsable (socket : Socket) : Bool :=
  !socket.destroyed

/-- `internals.HttpsAgent.prototype.isSocketUsable = function (socket) {
return socket.pair && socket.pair.ssl; }` — truthy exactly when the pair
object exists and its `ssl` field is still present. -/
def HttpsAgent.isSocketUsable (socket : Socket) : Bool :=
  match socket.pair with
  | some pr => pr.ssl.isSome
  | none => false

/-- `internals.buildNameKey = function (host, port, localAddress)`.
`host + ':' + port` coerces the numeric port to its decimal string
(`Nat.repr`); `if (localAddress)` is JS truthiness, so an empty-string local
address is not appended. -/
def buildNameKey (host : String) (port : Nat) (localAddress : Option String) : String :=
  let name := host ++ ":" ++ Nat.repr port
  match localAddress with
  | some la => if la = "" then name else name ++ ":" ++ la
  | none => name

/-- The mutable state of an agent instance: `this._idleSockets`,
`this.requests` (inherited from the node base agent) and
`this.options.maxFreeSockets`. -/
structure AgentState where
  idleSockets : String → Option (List Socket)
  requests : String → List Nat
  maxFreeSockets : Nat

/-- `socket._requestCount = ++socket._requestCount || 1` — incrementing an
absent (`undefined`) counter gives `NaN`, so `|| 1` initializes it to 1. -/
def countRequest (socket : Socket) : Socket :=
  { socket with
      requestCount :=
        match socket.requestCount with
        | some n => some (n + 1)
        | none => some 1 }

/-- External effect of dispatching a request: either it is handed an idle
socket (`request.onSocket(socket)`) or it falls through to the platform
base-class `Http.Agent.prototype.addRequest`. -/
inductive Dispatch where
  | onSocket (request : Nat) (socket : Socket)
  | baseAdd (request : Nat)
deriving DecidableEq, Repr

/-- The request a `Dispatch` event dispatches. -/
def Dispatch.req : Dispatch → Nat
  | .onSocket r _ => r
  | .baseAdd r => r

/-- The body of the `while (socket = this._idleSockets[name].pop())` loop of
`nextIdleSocket`, on the reversed stack (most recently pushed first): pop
entries one by one; return the first usable one together with what is left
below it, discarding the unusable entries popped on the way. -/
def popLoop (usable : Socket → Bool) : List Socket → Option Socket × List Socket
  | [] => (none, [])
  | s :: rest => if usable s then (some s, rest) else popLoop usable rest

/-- `internals.HttpAgent.prototype.nextIdleSocket = function (name)`.
The JS loop pops from the end of the array; we run `popLoop` on the reversed
list and reverse the remainder back. -/
def nextIdleSocket (usable : Socket → Bool) (st : AgentState) (name : String) :
    Option Socket × AgentState :=
  match st.idleSockets name with
  | none => (none, st)
  | some l =>
      let res := popLoop usable l.reverse
      (res.1,
        { st with
            idleSockets := fun n => if n = name then some res.2.reverse else st.idleSockets n })

/-- `internals.HttpAgent.prototype.addRequest = function (request, host, port,
localAddress)`: take the next idle socket for the name and hand it to the
request, else delegate to the platform base class.  Parametrized by the
usability predicate because `HttpsAgent` overrides `isSocketUsable` and
inherits everything else. -/
def addRequest (usable : Socket → Bool) (st : AgentState) (request : Nat)
    (host : String) (port : Nat) (localAddress : Option String) :
    AgentState × Dispatch :=
  let name := buildNameKey host port localAddress
  let res := nextIdleSocket usable st name
  match res.1 with
  | some socket => (res.2, Dispatch.onSocket request socket)
  | none => (res.2, Dispatch.baseAdd request)

/-- `internals.HttpAgent.prototype.free = function (socket, host, port,
localAddress)`.  Returns the updated state, the (possibly counted) socket,
and the dispatch event for a dequeued pending request, if any.  Mirrors the
source line by line: if the socket is usable, count it, materialize the
idle array for the name, and push the socket only below `maxFreeSockets`;
then, if a pending request exists for the name, shift the first one off and
re-dispatch it through `addRequest` before returning. -/
def free (usable : Socket → Bool) (st : AgentState) (socket : Socket)
    (host : String) (port : Nat) (localAddress : Option String) :
    AgentState × Socket × Option Dispatch :=
  let name := buildNameKey host port localAddress
  let step1 : Socket × AgentState :=
    if usable socket then
      let socket := countRequest socket
      let cur := (st.idleSockets name).getD []
      let newStack := if cur.length < st.maxFreeSockets then cur ++ [socket] else cur
      (socket,
        { st with
            idleSockets := fun n => if n = name then some newStack else st.idleSockets n })
    else (socket, st)
  let socket := step1.1
  let st := step1.2
  match st.requests name with
  | [] => (st, socket, none)
  | nextRequest :: rest =>
      let st :=
        { st with requests := fun n => if n = name then rest else st.requests n }
      let res := addRequest usable st nextRequest host port localAddress
      (res.1, socket, some res.2)

/-- `internals.HttpAgent.prototype.removeSocket = function (socket, name,
host, port, localAddress)`: if the idle array for the name exists and
contains the socket, splice out the entry at its `indexOf` (the first
occurrence); the trailing delegation to the platform base class is an
external effect not touching `_idleSockets`. -/
def removeSocket (st : AgentState) (socket : Socket) (name : String) : AgentState :=
  match st.idleSockets name with
  | none => st
  | some l =>
      if socket ∈ l then
        { st with
            idleSockets := fun n =>
              if n = name then some (l.eraseIdx (l.indexOf socket)) else st.idleSockets n }
      else st

/-! ## Tap transform (`lib/tap.js`) and payload plumbing

Byte chunks are `List Nat`.  The Tap transform's state is its `buffers`
accumulator; `_transform` appends the chunk and forwards it unchanged. -/

/-- The `Tap` transform stream's instance state: `this.buffers = []`. -/
structure Tap where
  buffers : List (List Nat)
deriving DecidableEq, Repr

/-- `new Tap()`. -/
def Tap.init : Tap := ⟨[]⟩

/-- `Tap.prototype._transform(chunk, encoding, next)`: push the chunk onto
`this.buffers` and forward the very same chunk downstream
(`next(null, chunk)`).  Returns the new state and the forwarded chunk. -/
def Tap.transform (t : Tap) (chunk : List Nat) : Tap × List Nat :=
  (⟨t.buffers ++ [chunk]⟩, chunk)

/-- Feeding a whole sequence of chunks through the transform, collecting the
forwarded output chunks in order. -/
def Tap.run (t : Tap) : List (List Nat) → Tap × List (List Nat)
  | [] => (t, [])
  | c :: cs =>
      let step := t.transform c
      let rest := step.1.run cs
      (rest.1, step.2 :: rest.2)

/-- Modelled from the spec: `lib/payload.js` is not among the provided
sources; per the spec, the payload built from accumulated chunks is their
concatenation in arrival order ("Accumulates chunks in arrival order;
concatenation preserves byte order exactly"). -/
def payloadContent (buffers : List (List Nat)) : List Nat :=
  buffers.flatten

/-- `Tap.prototype.collect()` returns `new Payload(this.buffers)`; its
content is `payloadContent this.buffers`. -/
def Tap.collect (t : Tap) : List Nat :=
  payloadContent t.buffers

/-- Modelled from the spec: `toReadableStream` is not among the provided
sources; per the spec it turns a buffer into a readable stream whose drain
"reproduces `buf` byte-for-byte", i.e. a stream emitting chunks whose
concatenation is the buffer (here: the buffer as a single chunk). -/
def toReadableStream (buf : List Nat) : List (List Nat) :=
  [buf]

/-! ## Redirect method policy (Redirect Controller)

`lib/index.js` (the request/redirect state machine) is not among the
provided sources — only its test suite is — so the method-selection rule is
modelled from the spec. -/

/-- Modelled from the spec: the Redirect Controller's choice of HTTP method
for a redirect response that is about to be followed (redirects remaining).
Spec §4.3: 301/302 use `redirectMethod` if given, else preserve the original
method (no POST→GET downgrade); 303 is only followed when `redirect303` is
set and then forces GET; 307/308 preserve the method.  `none` means the
status is not followed by the controller. -/
def redirectedMethod (statusCode : Nat) (method : String)
    (redirectMethodOverride : Option String) (redirect303 : Bool) : Option String :=
  if statusCode = 301 ∨ statusCode = 302 then
    some (redirectMethodOverride.getD method)
  else if statusCode = 303 then
    if redirect303 then some "GET" else none
  else if statusCode = 307 ∨ statusCode = 308 then
    some method
  else
    none

/-! ## Auxiliary definitions for the statements and proofs -/

/-- The per-key cap invariant: every materialized idle stack has length at
most `maxFreeSockets`. -/
def CapOK (st : AgentState) : Prop :=
  ∀ name l, st.idleSockets name = some l → l.length ≤ st.maxFreeSockets

/-- The spec's usability predicate for a plain connection, stated from the
spec's words: "the socket is usable if and only if its destroyed flag is not
set". -/
def specPlainUsable (s : Socket) : Prop :=
  ¬ s.destroyed = true

/-- The spec's usability predicate for a TLS connection, stated from the
spec's words: "the socket is usable if and only if its secure pair object
exists and its ssl field is still present". -/
def specTlsUsable (s : Socket) : Prop :=
  ∃ pr, s.pair = some pr ∧ pr.ssl ≠ none

/-- Decimal value of a digit string continued from accumulator `a`; used to
read a number back off the characters `Nat.toDigitsCore` produces. -/
def digitsVal (a : Nat) (l : List Char) : Nat :=
  l.foldl (fun x c => 10 * x + (c.toNat - 48)) a

/-- The character tail a local address contributes to a destination key. -/
def laTail (la : Option String) : List Char :=
  match la with
  | none => []
  | some s => ':' :: s.data

/-- A usable plain socket (concrete evaluation fixture). -/
def wSockGood : Socket := { id := 1, destroyed := false, pair := none, requestCount := none }

/-- A destroyed plain socket (concrete evaluation fixture). -/
def wSockBad : Socket := { id := 2, destroyed := true, pair := none, requestCount := none }

/-- A state whose `"h:80"` idle stack holds a destroyed socket below a usable
one (concrete evaluation fixture). -/
def wState : AgentState :=
  { idleSockets := fun n => if n = "h:80" then some [wSockBad, wSockGood] else none
    requests := fun _ => []
    maxFreeSockets := 256 }

/-- A completely empty pool state (concrete evaluation fixture). -/
def wEmpty : AgentState :=
  { idleSockets := fun _ => none
    requests := fun _ => []
    maxFreeSockets := 256 }

/-- An empty pool state with one request pending for `"h:80"` (concrete
evaluation fixture). -/
def wPending : AgentState :=
  { idleSockets := fun _ => none
    requests := fun n => if n = "h:80" then [5] else []
    maxFreeSockets := 256 }

/-! ## The pop loop of `nextIdleSocket` -/

/-- The pop loop returns the first usable socket of the (already reversed)
stack and keeps exactly the part below it, dropping the unusable entries it
popped on the way. -/
theorem popLoop_eq (usable : Socket → Bool) (l : List Socket) :
    popLoop usable l = (l.find? usable, (l.dropWhile fun s => !usable s).tail) := by
  induction l with
  | nil => simp [popLoop]
  | cons s rest ih =>
      by_cases h : usable s = true
      · simp [popLoop, h, List.dropWhile_cons]
      · simp only [Bool.not_eq_true] at h
        simp [popLoop, h, List.dropWhile_cons, ih]

/-- The pop loop never lengthens the stack. -/
theorem popLoop_length_le (usable : Socket → Bool) (l : List Socket) :
    (popLoop usable l).2.length ≤ l.length := by
  induction l with
  | nil => simp [popLoop]
  | cons s rest ih =>
      by_cases h : usable s = true <;> simp [popLoop, h] <;> omega


/-- C1: For every destination key, `nextIdleSocket` scans the idle stack
most-recently-freed first and returns the first usable socket (`find?` on
the reversed stack), or `null` when the stack is exhausted; every returned
socket satisfies the usability predicate, so a socket that became unusable
between release and the next acquire is never handed back; the unusable
entries popped on the way are discarded from the stack as a side effect. -/
theorem nextIdleSocket_never_returns_unusable (usable : Socket → Bool)
    (st : AgentState) (name : String) :
    (nextIdleSocket usable st name).1
        = ((st.idleSockets name).getD []).reverse.find? usable
    ∧ (∀ s, (nextIdleSocket usable st name).1 = some s → usable s = true)
    ∧ ((nextIdleSocket usable st name).2.idleSockets name).getD []
        = ((((st.idleSockets name).getD []).reverse.dropWhile fun s => !usable s).tail).reverse := by
  cases hl : st.idleSockets name with
  | none =>
      refine ⟨by simp [nextIdleSocket, hl], fun s hs => ?_, by simp [nextIdleSocket, hl]⟩
      simp [nextIdleSocket, hl] at hs
  | some l =>
      refine ⟨by simp [nextIdleSocket, hl, popLoop_eq], fun s hs => ?_,
        by simp [nextIdleSocket, hl, popLoop_eq]⟩
      simp only [nextIdleSocket, hl, popLoop_eq] at hs
      exact List.find?_some hs

/-- Witness for C1 at a concrete state: the stack for `"h:80"` holds a
destroyed socket below a usable one; the returned socket is usable. -/
theorem nextIdleSocket_never_returns_unusable_witness :
    HttpAgent.isSocketUsable wSockGood = true :=
  (nextIdleSocket_never_returns_unusable HttpAgent.isSocketUsable wState "h:80").2.1
    wSockGood (by decide)

/-! ## Frame lemmas for `nextIdleSocket` / `addRequest` -/

/-- `nextIdleSocket` does not touch the pending request queue. -/
theorem nextIdleSocket_requests (usable : Socket → Bool) (st : AgentState) (name : String) :
    (nextIdleSocket usable st name).2.requests = st.requests := by
  cases hl : st.idleSockets name <;> simp [nextIdleSocket, hl]

/-- `nextIdleSocket` does not change the configured cap. -/
theorem nextIdleSocket_maxFree (usable : Socket → Bool) (st : AgentState) (name : String) :
    (nextIdleSocket usable st name).2.maxFreeSockets = st.maxFreeSockets := by
  cases hl : st.idleSockets name <;> simp [nextIdleSocket, hl]

/-- `addRequest` does not touch the pending request queue (queueing happens in
the platform base class, an external effect). -/
theorem addRequest_requests (usable : Socket → Bool) (st : AgentState) (request : Nat)
    (host : String) (port : Nat) (la : Option String) :
    (addRequest usable st request host port la).1.requests = st.requests := by
  simp only [addRequest]
  split <;> simp [nextIdleSocket_requests]

/-- `addRequest` does not change the configured cap. -/
theorem addRequest_maxFree (usable : Socket → Bool) (st : AgentState) (request : Nat)
    (host : String) (port : Nat) (la : Option String) :
    (addRequest usable st request host port la).1.maxFreeSockets = st.maxFreeSockets := by
  simp only [addRequest]
  split <;> simp [nextIdleSocket_maxFree]

/-- The dispatch event produced by `addRequest` carries exactly the request
that was passed in, on both paths. -/
@[simp] theorem addRequest_req (usable : Socket → Bool) (st : AgentState) (request : Nat)
    (host : String) (port : Nat) (la : Option String) :
    (addRequest usable st request host port la).2.req = request := by
  simp only [addRequest]
  split <;> rfl

/-! ## C2: LIFO reuse -/

/-- C2 (amended): releasing a usable socket `A` for key `K` and then acquiring
from `K` returns `A` itself (its reuse counter incremented in place),
provided the stack was below the per-key cap at release, `A` stayed usable,
and no request was pending for `K` at release: release pushes `A` on top of
the key's stack and acquire pops it. -/
theorem free_then_acquire_lifo (usable : Socket → Bool) (st : AgentState) (A : Socket)
    (host : String) (port : Nat) (la : Option String)
    (hU : usable A = true) (hU2 : usable (countRequest A) = true)
    (hCap : ((st.idleSockets (buildNameKey host port la)).getD []).length < st.maxFreeSockets)
    (hQ : st.requests (buildNameKey host port la) = []) :
    (free usable st A host port la).2.2 = none
    ∧ (free usable st A host port la).2.1 = countRequest A
    ∧ (countRequest A).id = A.id
    ∧ (free usable st A host port la).1.idleSockets (buildNameKey host port la)
        = some ((st.idleSockets (buildNameKey host port la)).getD [] ++ [countRequest A])
    ∧ (nextIdleSocket usable (free usable st A host port la).1 (buildNameKey host port la)).1
        = some (countRequest A) := by
  have h4 : (free usable st A host port la).1.idleSockets (buildNameKey host port la)
      = some ((st.idleSockets (buildNameKey host port la)).getD [] ++ [countRequest A]) := by
    simp [free, hU, hQ, hCap]
  refine ⟨by simp [free, hU, hQ], by simp [free, hU, hQ], by simp [countRequest], h4, ?_⟩
  simp [nextIdleSocket, h4, popLoop_eq, hU2]

/-- Witness for C2 (amended) at a concrete state: releasing a usable socket
into the empty pool and acquiring again returns it. -/
theorem free_then_acquire_lifo_witness :
    (nextIdleSocket HttpAgent.isSocketUsable
        (free HttpAgent.isSocketUsable wEmpty wSockGood "h" 80 none).1
        (buildNameKey "h" 80 none)).1 = some (countRequest wSockGood) :=
  (free_then_acquire_lifo HttpAgent.isSocketUsable wEmpty wSockGood "h" 80 none
      (by decide) (by decide) (by decide) rfl).2.2.2.2

/-- C2 as frozen is false on the code: at a concrete state where a request is
pending for the key, both stated provisos hold (the socket is usable and the
stack is below the cap), yet `free` hands the freed socket to the pending
request it dequeues, so the subsequent acquire returns `null`, not the
released socket. -/
theorem free_then_acquire_lifo_counterexample :
    HttpAgent.isSocketUsable wSockGood = true
    ∧ ((wPending.idleSockets (buildNameKey "h" 80 none)).getD []).length
        < wPending.maxFreeSockets
    ∧ (nextIdleSocket HttpAgent.isSocketUsable
          (free HttpAgent.isSocketUsable wPending wSockGood "h" 80 none).1
          (buildNameKey "h" 80 none)).1 = none := by
  decide

/-! ## C5: FIFO dequeue of pending requests inside `free` -/

/-- C5: whenever a socket is freed for a key with waiting requests, exactly
the earliest-queued request for that key is removed from the front of the
queue and re-dispatched before `free` returns; the rest of the queue keeps
its order, and the queues of all other keys are untouched. -/
theorem free_dequeues_fifo (usable : Socket → Bool) (st : AgentState) (socket : Socket)
    (host : String) (port : Nat) (la : Option String) (r : Nat) (rs : List Nat)
    (hq : st.requests (buildNameKey host port la) = r :: rs) :
    (free usable st socket host port la).1.requests (buildNameKey host port la) = rs
    ∧ (∃ d, (free usable st socket host port la).2.2 = some d ∧ d.req = r)
    ∧ ∀ n, n ≠ buildNameKey host port la →
        (free usable st socket host port la).1.requests n = st.requests n := by
  refine ⟨?_, ?_, fun n hn => ?_⟩
  · by_cases hU : usable socket = true <;> simp [free, hU, hq, addRequest_requests]
  · by_cases hU : usable socket = true <;> simp [free, hU, hq, addRequest_requests]
  · by_cases hU : usable socket = true <;> simp [free, hU, hq, addRequest_requests, hn]

/-- Witness for C5 at a concrete state: freeing a socket while request `5` is
pending for `"h:80"` empties that queue. -/
theorem free_dequeues_fifo_witness :
    (free HttpAgent.isSocketUsable wPending wSockGood "h" 80 none).1.requests
        (buildNameKey "h" 80 none) = [] :=
  (free_dequeues_fifo HttpAgent.isSocketUsable wPending wSockGood "h" 80 none 5 []
      (by decide)).1

/-! ## C9: the reuse counter is incremented even when the socket is not kept -/

/-- C9: `free` on a usable socket always increments the socket's
`_requestCount` (initializing it to 1 on first release, i.e. to the previous
count, 0 when absent, plus one), even when the key's stack is at
`maxFreeSockets` and the socket is therefore not retained: in that case the
idle stack is left exactly as it was (the increment and the push are
independent effects). -/
theorem free_counts_socket (usable : Socket → Bool) (st : AgentState) (socket : Socket)
    (host : String) (port : Nat) (la : Option String) (hU : usable socket = true) :
    (free usable st socket host port la).2.1 = countRequest socket
    ∧ (free usable st socket host port la).2.1.requestCount
        = some (socket.requestCount.getD 0 + 1)
    ∧ (((st.idleSockets (buildNameKey host port la)).getD []).length ≥ st.maxFreeSockets →
        st.requests (buildNameKey host port la) = [] →
        (free usable st socket host port la).1.idleSockets (buildNameKey host port la)
          = some ((st.idleSockets (buildNameKey host port la)).getD [])) := by
  have hsock : (free usable st socket host port la).2.1 = countRequest socket := by
    simp only [free]
    rw [if_pos hU]
    split <;> rfl
  refine ⟨hsock, ?_, fun hcap hq => ?_⟩
  · rw [hsock]
    cases h : socket.requestCount <;> simp [countRequest, h]
  · have hlt : ¬ ((st.idleSockets (buildNameKey host port la)).getD []).length
        < st.maxFreeSockets := by omega
    simp [free, hU, hq, hlt]

/-- Witness for C9 at a concrete state: a pool with `maxFreeSockets = 0`
does not retain the freed socket but still stamps its counter to 1. -/
theorem free_counts_socket_witness :
    (free HttpAgent.isSocketUsable
        { idleSockets := fun _ => none, requests := fun _ => [], maxFreeSockets := 0 }
        wSockGood "h" 80 none).2.1.requestCount = some (wSockGood.requestCount.getD 0 + 1) :=
  (free_counts_socket HttpAgent.isSocketUsable
      { idleSockets := fun _ => none, requests := fun _ => [], maxFreeSockets := 0 }
      wSockGood "h" 80 none (by decide)).2.1

/-! ## C3: the per-key cap is an invariant -/

/-- `nextIdleSocket` preserves the cap invariant (it only shrinks stacks). -/
theorem capOK_nextIdleSocket (usable : Socket → Bool) (st : AgentState) (name : String)
    (h : CapOK st) : CapOK (nextIdleSocket usable st name).2 := by
  intro n l' hl'
  rw [nextIdleSocket_maxFree]
  cases hl : st.idleSockets name with
  | none =>
      simp only [nextIdleSocket, hl] at hl'
      exact h n l' hl'
  | some l =>
      simp only [nextIdleSocket, hl] at hl'
      by_cases hn : n = name
      · rw [if_pos hn, Option.some.injEq] at hl'
        have hle : (popLoop usable l.reverse).2.length ≤ l.length := by
          simpa using popLoop_length_le usable l.reverse
        have hmax := h name l hl
        rw [← hl']
        simp only [List.length_reverse]
        omega
      · rw [if_neg hn] at hl'
        exact h n l' hl'

/-- `addRequest` preserves the cap invariant. -/
theorem capOK_addRequest (usable : Socket → Bool) (st : AgentState) (request : Nat)
    (host : String) (port : Nat) (la : Option String)
    (h : CapOK st) : CapOK (addRequest usable st request host port la).1 := by
  simp only [addRequest]
  split <;> exact capOK_nextIdleSocket usable st _ h

/-- The push step of `free`: conditionally appending a socket to the key's
stack (only when strictly below the cap) preserves the cap invariant. -/
theorem capOK_push (st : AgentState) (key : String) (socket : Socket) (h : CapOK st) :
    CapOK
      { st with
          idleSockets := fun n =>
            if n = key then
              some (if ((st.idleSockets key).getD []).length < st.maxFreeSockets then
                      (st.idleSockets key).getD [] ++ [socket]
                    else (st.idleSockets key).getD [])
            else st.idleSockets n } := by
  intro n l' hl'
  show l'.length ≤ st.maxFreeSockets
  simp only at hl'
  have hcur : ((st.idleSockets key).getD []).length ≤ st.maxFreeSockets := by
    cases hc : st.idleSockets key with
    | none => simp
    | some l => simpa using h key l hc
  by_cases hn : n = key
  · rw [if_pos hn, Option.some.injEq] at hl'
    by_cases hlt : ((st.idleSockets key).getD []).length < st.maxFreeSockets
    · rw [if_pos hlt] at hl'
      rw [← hl']
      simp only [List.length_append, List.length_cons, List.length_nil]
      omega
    · rw [if_neg hlt] at hl'
      rw [← hl']
      exact hcur
  · rw [if_neg hn] at hl'
    exact h n l' hl'

/-- `free` preserves the cap invariant. -/
theorem capOK_free (usable : Socket → Bool) (st : AgentState) (socket : Socket)
    (host : String) (port : Nat) (la : Option String)
    (h : CapOK st) : CapOK (free usable st socket host port la).1 := by
  by_cases hU : usable socket = true
  · have hstep := capOK_push st (buildNameKey host port la) (countRequest socket) h
    simp only [free]
    rw [if_pos hU]
    dsimp only
    split
    · exact hstep
    · exact capOK_addRequest usable _ _ host port la (fun n l hl => hstep n l hl)
  · simp only [free]
    rw [if_neg hU]
    dsimp only
    split
    · exact h
    · exact capOK_addRequest usable _ _ host port la (fun n l hl => h n l hl)

/-- `free` does not change the configured cap. -/
theorem free_maxFree (usable : Socket → Bool) (st : AgentState) (socket : Socket)
    (host : String) (port : Nat) (la : Option String) :
    (free usable st socket host port la).1.maxFreeSockets = st.maxFreeSockets := by
  by_cases hU : usable socket = true
  · simp only [free]
    rw [if_pos hU]
    dsimp only
    split
    · rfl
    · rw [addRequest_maxFree]
  · simp only [free]
    rw [if_neg hU]
    dsimp only
    split
    · rfl
    · rw [addRequest_maxFree]

/-- C3: `maxFreeSockets` defaults to 256, and the per-key cap is an invariant
of every pool operation: if every idle stack is within the cap, it still is
after `free` (which refuses to push onto a full stack), after
`nextIdleSocket`, after `addRequest`, and after `removeSocket`; none of them
changes the configured cap. -/
theorem maxFreeSockets_invariant :
    internalsDefaults.maxFreeSockets = 256
    ∧ (∀ usable st socket host port la, CapOK st →
        CapOK (free usable st socket host port la).1)
    ∧ (∀ usable st name, CapOK st → CapOK (nextIdleSocket usable st name).2)
    ∧ (∀ usable st request host port la, CapOK st →
        CapOK (addRequest usable st request host port la).1)
    ∧ (∀ st socket name, CapOK st → CapOK (removeSocket st socket name))
    ∧ (∀ usable st socket host port la,
        (free usable st socket host port la).1.maxFreeSockets = st.maxFreeSockets) := by
  refine ⟨rfl, fun usable st socket host port la h =>
      capOK_free usable st socket host port la h,
    fun usable st name h => capOK_nextIdleSocket usable st name h,
    fun usable st request host port la h =>
      capOK_addRequest usable st request host port la h,
    fun st socket name h => ?_,
    fun usable st socket host port la => free_maxFree usable st socket host port la⟩
  cases hl : st.idleSockets name with
  | none => simpa [removeSocket, hl] using h
  | some l =>
      by_cases hmem : socket ∈ l
      · intro n l' hl'
        simp only [removeSocket, hl, if_pos hmem] at hl'
        have hmf : (removeSocket st socket name).maxFreeSockets = st.maxFreeSockets := by
          simp [removeSocket, hl, hmem]
        rw [hmf]
        by_cases hn : n = name
        · rw [if_pos hn, Option.some.injEq] at hl'
          have hle : (l.eraseIdx (l.indexOf socket)).length ≤ l.length :=
            List.length_eraseIdx_le l (l.indexOf socket)
          have hmax := h name l hl
          rw [← hl']
          omega
        · rw [if_neg hn] at hl'
          exact h n l' hl'
      · simpa [removeSocket, hl, hmem] using h

/-- Witness for C3: the cap invariant of the empty pool (discharged by the
vacuous term) is preserved by a concrete `free`. -/
theorem maxFreeSockets_invariant_witness :
    CapOK (free HttpAgent.isSocketUsable wEmpty wSockGood "h" 80 none).1 :=
  maxFreeSockets_invariant.2.1 HttpAgent.isSocketUsable wEmpty wSockGood "h" 80 none
    (fun _ _ h => absurd h (by simp [wEmpty]))

/-! ## C10: `removeSocket` removes at most the first occurrence -/

/-- `indexOf` finds no earlier occurrence: every position strictly before
`l.indexOf a` holds an element different from `a`. -/
theorem indexOf_min {α : Type} [DecidableEq α] (l : List α) (a : α) :
    ∀ j, j < l.indexOf a → l[j]? ≠ some a := by
  induction l with
  | nil => intro j hj; simp at hj ⊢
  | cons c t ih =>
      intro j hj
      by_cases hc : c = a
      · rw [List.indexOf_cons_eq t hc] at hj
        omega
      · rw [List.indexOf_cons_ne t hc] at hj
        cases j with
        | zero => simpa using hc
        | succ j =>
            simp only [List.getElem?_cons_succ]
            exact ih j (by omega)

/-- C10: `removeSocket` leaves the key's idle stack unchanged when the socket
is absent; when present it deletes exactly one entry — the first
(oldest-pushed) occurrence, at `indexOf` — keeping everything before and
after it; idle stacks of every other key, the pending queues and the cap are
untouched, as is an absent entry. -/
theorem removeSocket_first_occurrence (st : AgentState) (socket : Socket) (name : String) :
    (∀ l, st.idleSockets name = some l → socket ∉ l →
        (removeSocket st socket name).idleSockets name = some l)
    ∧ (∀ l, st.idleSockets name = some l → socket ∈ l →
        (removeSocket st socket name).idleSockets name
            = some (l.take (l.indexOf socket) ++ l.drop (l.indexOf socket + 1))
        ∧ l[l.indexOf socket]? = some socket
        ∧ (∀ j, j < l.indexOf socket → l[j]? ≠ some socket)
        ∧ (l.take (l.indexOf socket) ++ l.drop (l.indexOf socket + 1)).length + 1 = l.length)
    ∧ (∀ n, n ≠ name → (removeSocket st socket name).idleSockets n = st.idleSockets n)
    ∧ (removeSocket st socket name).requests = st.requests
    ∧ (removeSocket st socket name).maxFreeSockets = st.maxFreeSockets
    ∧ (st.idleSockets name = none →
        (removeSocket st socket name).idleSockets name = none) := by
  refine ⟨fun l hl hmem => by simp [removeSocket, hl, hmem], fun l hl hmem => ?_,
    fun n hn => ?_, ?_, ?_, fun hl => by simp [removeSocket, hl]⟩
  · have hidx : l.indexOf socket < l.length := List.indexOf_lt_length.2 hmem
    refine ⟨?_, ?_, indexOf_min l socket, ?_⟩
    · simp [removeSocket, hl, hmem, List.eraseIdx_eq_take_drop_succ]
    · rw [List.getElem?_eq_getElem hidx]
      exact congrArg some (List.getElem_indexOf hidx)
    · rw [← List.eraseIdx_eq_take_drop_succ]
      exact List.length_eraseIdx_add_one hidx
  · cases hl : st.idleSockets name with
    | none => simp [removeSocket, hl]
    | some l => by_cases hmem : socket ∈ l <;> simp [removeSocket, hl, hmem, hn]
  · cases hl : st.idleSockets name with
    | none => simp [removeSocket, hl]
    | some l => by_cases hmem : socket ∈ l <;> simp [removeSocket, hl, hmem]
  · cases hl : st.idleSockets name with
    | none => simp [removeSocket, hl]
    | some l => by_cases hmem : socket ∈ l <;> simp [removeSocket, hl, hmem]

/-- Witness for C10 at a concrete state: removing the destroyed socket from
the `"h:80"` stack keeps exactly the other entry. -/
theorem removeSocket_first_occurrence_witness :
    (removeSocket wState wSockBad "h:80").idleSockets "h:80"
      = some ([wSockBad, wSockGood].take ([wSockBad, wSockGood].indexOf wSockBad)
          ++ [wSockBad, wSockGood].drop ([wSockBad, wSockGood].indexOf wSockBad + 1)) :=
  ((removeSocket_first_occurrence wState wSockBad "h:80").2.1 [wSockBad, wSockGood]
      (by decide) (by decide)).1

/-! ## C7: the usability predicates -/

/-- C7: the socket usability predicate is exactly as specified — for a plain
HTTP connection, usable iff the `destroyed` flag is not set; for a TLS
connection, usable iff the secure pair object exists and its `ssl` field is
still present.  (All other pool logic is shared: `free`, `addRequest`,
`nextIdleSocket` and `removeSocket` are single functions parametrized by the
predicate, which is the only point where the two variants differ.) -/
theorem isSocketUsable_matches_spec (s : Socket) :
    (HttpAgent.isSocketUsable s = true ↔ specPlainUsable s)
    ∧ (HttpsAgent.isSocketUsable s = true ↔ specTlsUsable s) := by
  constructor
  · simp [HttpAgent.isSocketUsable, specPlainUsable]
  · cases hp : s.pair with
    | none => simp [HttpsAgent.isSocketUsable, specTlsUsable, hp]
    | some pr =>
        simp only [HttpsAgent.isSocketUsable, specTlsUsable, hp, Option.isSome_iff_exists,
          Option.some.injEq]
        constructor
        · rintro ⟨x, hx⟩
          exact ⟨pr, rfl, by simp [hx]⟩
        · rintro ⟨q, rfl, hssl⟩
          cases hx : pr.ssl with
          | none => exact absurd hx hssl
          | some u => exact ⟨u, rfl⟩

/-! ## C4: 301/302 redirects preserve the method -/

/-- C4: for a 301 or 302 redirect that is being followed, the redirected
request uses exactly the original method when no `redirectMethod` override is
given (no POST→GET downgrade), and the override when it is given. -/
theorem redirect301and302PreservesMethod (statusCode : Nat) (method : String)
    (redirect303 : Bool) (hs : statusCode = 301 ∨ statusCode = 302) :
    redirectedMethod statusCode method none redirect303 = some method
    ∧ ∀ override, redirectedMethod statusCode method (some override) redirect303
        = some override := by
  constructor
  · rcases hs with h | h <;> simp [redirectedMethod, h]
  · intro override
    rcases hs with h | h <;> simp [redirectedMethod, h]

/-! ## C6: Tap forwards chunks unchanged and collects their concatenation -/

/-- Feeding chunks through the Tap transform appends them to the accumulated
buffers and forwards each chunk unchanged, in order. -/
theorem Tap.run_spec (cs : List (List Nat)) : ∀ t : Tap, t.run cs = (⟨t.buffers ++ cs⟩, cs) := by
  induction cs with
  | nil => intro t; simp [Tap.run]
  | cons c cs ih => intro t; simp [Tap.run, Tap.transform, ih]

/-- C6: every chunk written through the Tap transform is forwarded unchanged
in arrival order, and `collect` yields exactly the concatenation of the
chunks in arrival order; hence draining the stream produced from a buffer
(of any size, zero included) reproduces that buffer byte-for-byte, both at
the collect side and downstream. -/
theorem tap_collects_concatenation :
    (∀ chunks : List (List Nat), (Tap.init.run chunks).2 = chunks)
    ∧ (∀ chunks : List (List Nat), (Tap.init.run chunks).1.collect = chunks.flatten)
    ∧ (∀ buf : List Nat, (Tap.init.run (toReadableStream buf)).1.collect = buf)
    ∧ (∀ buf : List Nat, ((Tap.init.run (toReadableStream buf)).2).flatten = buf) := by
  refine ⟨fun chunks => ?_, fun chunks => ?_, fun buf => ?_, fun buf => ?_⟩ <;>
    simp [Tap.run_spec, Tap.init, Tap.collect, payloadContent, toReadableStream]

/-- Witness for C4: a followed 301 with no override re-sends POST as POST. -/
theorem redirect301and302PreservesMethod_witness :
    redirectedMethod 301 "POST" none false = some "POST" :=
  (redirect301and302PreservesMethod 301 "POST" false (Or.inl rfl)).1

/-! ## C8: the destination key

Facts about the decimal representation `Nat.repr` used by the string
coercion in `host + ':' + port`. -/

/-- The digit characters produced for values below 10 are decimal digits. -/
theorem digitChar_isDigit (n : Nat) (h : n < 10) : (Nat.digitChar n).isDigit = true := by
  interval_cases n <;> decide

/-- Reading a digit character back (`toNat - 48`) recovers its value. -/
theorem digitChar_val (n : Nat) (h : n < 10) : (Nat.digitChar n).toNat - 48 = n := by
  interval_cases n <;> decide

/-- All characters `Nat.toDigitsCore` emits in base 10 are decimal digits. -/
theorem toDigitsCore_isDigit : ∀ (fuel n : Nat) (ds : List Char),
    (∀ c ∈ ds, c.isDigit = true) → ∀ c ∈ Nat.toDigitsCore 10 fuel n ds, c.isDigit = true := by
  intro fuel
  induction fuel with
  | zero =>
      intro n ds h c hc
      simp only [Nat.toDigitsCore] at hc
      exact h c hc
  | succ fuel ih =>
      intro n ds h c hc
      have hd : (Nat.digitChar (n % 10)).isDigit = true :=
        digitChar_isDigit (n % 10) (Nat.mod_lt n (by omega))
      have hcons : ∀ x ∈ Nat.digitChar (n % 10) :: ds, x.isDigit = true := by
        intro x hx
        rcases List.mem_cons.1 hx with rfl | hx
        · exact hd
        · exact h x hx
      simp only [Nat.toDigitsCore] at hc
      by_cases h0 : n / 10 = 0
      · rw [if_pos h0] at hc
        exact hcons c hc
      · rw [if_neg h0] at hc
        exact ih (n / 10) _ hcons c hc

/-- `Nat.toDigitsCore` never shrinks a nonempty accumulator away. -/
theorem toDigitsCore_ne_nil : ∀ (fuel n : Nat) (ds : List Char), ds ≠ [] →
    Nat.toDigitsCore 10 fuel n ds ≠ [] := by
  intro fuel
  induction fuel with
  | zero =>
      intro n ds h
      simpa [Nat.toDigitsCore] using h
  | succ fuel ih =>
      intro n ds h
      simp only [Nat.toDigitsCore]
      by_cases h0 : n / 10 = 0
      · rw [if_pos h0]
        simp
      · rw [if_neg h0]
        exact ih (n / 10) _ (by simp)

/-- The decimal digit list of a natural number is nonempty. -/
theorem toDigits_ne_nil (n : Nat) : Nat.toDigits 10 n ≠ [] := by
  simp only [Nat.toDigits, Nat.toDigitsCore]
  by_cases h0 : n / 10 = 0
  · rw [if_pos h0]
    simp
  · rw [if_neg h0]
    exact toDigitsCore_ne_nil n (n / 10) _ (by simp)

/-- Folding the decimal digits `Nat.toDigitsCore` prepends to `ds` extends the
accumulator `a` by the printed value: there is a digit count `k` with
`digitsVal a (toDigitsCore 10 fuel n ds) = digitsVal (a * 10 ^ k + n) ds`,
whenever the fuel suffices (as it does at every call site). -/
theorem toDigitsCore_val : ∀ (fuel n : Nat), n < fuel → ∀ (ds : List Char) (a : Nat),
    ∃ k, digitsVal a (Nat.toDigitsCore 10 fuel n ds) = digitsVal (a * 10 ^ k + n) ds := by
  intro fuel
  induction fuel with
  | zero =>
      intro n hn
      exact absurd hn (Nat.not_lt_zero n)
  | succ fuel ih =>
      intro n hn ds a
      simp only [Nat.toDigitsCore]
      by_cases h0 : n / 10 = 0
      · rw [if_pos h0]
        refine ⟨1, ?_⟩
        have h10 : n < 10 := by omega
        simp only [digitsVal, List.foldl_cons]
        rw [digitChar_val (n % 10) (Nat.mod_lt n (by omega)), Nat.mod_eq_of_lt h10]
        have heq : 10 * a + n = a * 10 ^ 1 + n := by ring
        rw [heq]
      · rw [if_neg h0]
        have hlt : n / 10 < fuel := by omega
        obtain ⟨k, hk⟩ := ih (n / 10) hlt (Nat.digitChar (n % 10) :: ds) a
        refine ⟨k + 1, ?_⟩
        rw [hk]
        simp only [digitsVal, List.foldl_cons]
        rw [digitChar_val (n % 10) (Nat.mod_lt n (by omega))]
        have heq : 10 * (a * 10 ^ k + n / 10) + n % 10 = a * 10 ^ (k + 1) + n := by
          rw [pow_succ, ← mul_assoc]
          generalize a * 10 ^ k = m
          omega
        rw [heq]

/-- Reading the decimal digits of `n` back gives `n`. -/
theorem toDigits_val (n : Nat) : digitsVal 0 (Nat.toDigits 10 n) = n := by
  obtain ⟨k, hk⟩ := toDigitsCore_val (n + 1) n (by omega) [] 0
  simpa [digitsVal, Nat.toDigits] using hk

/-- The decimal representation is injective. -/
theorem repr_injective {m n : Nat} (h : Nat.repr m = Nat.repr n) : m = n := by
  have hdata : Nat.toDigits 10 m = Nat.toDigits 10 n := by
    have hd := congrArg String.data h
    simpa [Nat.repr, List.asString] using hd
  have hv := congrArg (digitsVal 0) hdata
  rwa [toDigits_val, toDigits_val] at hv

/-- Every character of `Nat.repr n` is a decimal digit. -/
theorem repr_isDigit (n : Nat) (c : Char) (hc : c ∈ (Nat.repr n).data) : c.isDigit = true := by
  have hd : (Nat.repr n).data = Nat.toDigits 10 n := by
    simp [Nat.repr, List.asString]
  rw [hd] at hc
  exact toDigitsCore_isDigit (n + 1) n [] (by simp) c hc

/-- `Nat.repr n` contains no colon. -/
theorem repr_no_colon (n : Nat) : (':' : Char) ∉ (Nat.repr n).data := by
  intro hc
  have := repr_isDigit n ':' hc
  exact absurd this (by decide)

/-- `Nat.repr n` is nonempty. -/
theorem repr_data_ne_nil (n : Nat) : (Nat.repr n).data ≠ [] := by
  have hd : (Nat.repr n).data = Nat.toDigits 10 n := by
    simp [Nat.repr, List.asString]
  rw [hd]
  exact toDigits_ne_nil n

/-- Splitting at the first colon is unambiguous: if two concatenations
`a ++ ':' :: b` agree and neither prefix contains a colon, prefixes and
suffixes agree. -/
theorem colon_split : ∀ (a1 : List Char) {b1 : List Char} (a2 : List Char) {b2 : List Char},
    (':' : Char) ∉ a1 → (':' : Char) ∉ a2 →
    a1 ++ ':' :: b1 = a2 ++ ':' :: b2 → a1 = a2 ∧ b1 = b2 := by
  intro a1
  induction a1 with
  | nil =>
      intro b1 a2 b2 h1 h2 heq
      cases a2 with
      | nil => simpa using heq
      | cons c t =>
          simp only [List.nil_append, List.cons_append, List.cons.injEq] at heq
          have : (':' : Char) ∈ c :: t := by
            rw [← heq.1]
            exact List.mem_cons_self _ _
          exact absurd this h2
  | cons c1 t1 ih =>
      intro b1 a2 b2 h1 h2 heq
      cases a2 with
      | nil =>
          simp only [List.cons_append, List.nil_append, List.cons.injEq] at heq
          have : (':' : Char) ∈ c1 :: t1 := by
            rw [heq.1]
            exact List.mem_cons_self _ _
          exact absurd this h1
      | cons c2 t2 =>
          simp only [List.cons_append, List.cons.injEq] at heq
          obtain ⟨hc, ht⟩ := heq
          have h1t : (':' : Char) ∉ t1 := fun hx => h1 (List.mem_cons_of_mem _ hx)
          have h2t : (':' : Char) ∉ t2 := fun hx => h2 (List.mem_cons_of_mem _ hx)
          obtain ⟨ha, hb⟩ := ih t2 h1t h2t ht
          exact ⟨by rw [hc, ha], hb⟩

/-- A digit run followed by either nothing or a colon-headed tail decomposes
uniquely. -/
theorem digits_split : ∀ (d1 : List Char) {t1 : List Char} (d2 : List Char) {t2 : List Char},
    (∀ c ∈ d1, c.isDigit = true) → (∀ c ∈ d2, c.isDigit = true) →
    (t1 = [] ∨ ∃ r, t1 = ':' :: r) → (t2 = [] ∨ ∃ r, t2 = ':' :: r) →
    d1 ++ t1 = d2 ++ t2 → d1 = d2 ∧ t1 = t2 := by
  intro d1
  induction d1 with
  | nil =>
      intro t1 d2 t2 h1 h2 ht1 ht2 heq
      cases d2 with
      | nil => simpa using heq
      | cons c2 u2 =>
          simp only [List.nil_append, List.cons_append] at heq
          rcases ht1 with rfl | ⟨r, rfl⟩
          · exact absurd heq (by simp)
          · have hc2 : c2.isDigit = true := h2 c2 (List.mem_cons_self _ _)
            have hcol : (':' : Char) = c2 := (List.cons.injEq .. ▸ heq).1
            rw [← hcol] at hc2
            exact absurd hc2 (by decide)
  | cons c1 u1 ih =>
      intro t1 d2 t2 h1 h2 ht1 ht2 heq
      cases d2 with
      | nil =>
          simp only [List.cons_append, List.nil_append] at heq
          rcases ht2 with rfl | ⟨r, rfl⟩
          · exact absurd heq (by simp)
          · have hc1 : c1.isDigit = true := h1 c1 (List.mem_cons_self _ _)
            have hcol : c1 = ':' := (List.cons.injEq .. ▸ heq).1
            rw [hcol] at hc1
            exact absurd hc1 (by decide)
      | cons c2 u2 =>
          simp only [List.cons_append, List.cons.injEq] at heq
          obtain ⟨hc, ht⟩ := heq
          have h1u : ∀ c ∈ u1, c.isDigit = true := fun c hcm => h1 c (List.mem_cons_of_mem _ hcm)
          have h2u : ∀ c ∈ u2, c.isDigit = true := fun c hcm => h2 c (List.mem_cons_of_mem _ hcm)
          obtain ⟨ha, hb⟩ := ih u2 h1u h2u ht1 ht2 ht
          exact ⟨by rw [hc, ha], hb⟩

/-- The character data of a destination key, split at its separators. -/
theorem buildNameKey_data (host : String) (port : Nat) (la : Option String)
    (hla : la ≠ some "") :
    (buildNameKey host port la).data
      = host.data ++ ':' :: ((Nat.repr port).data ++ laTail la) := by
  match la with
  | none => simp [buildNameKey, laTail]
  | some s =>
      have hs : ¬ s = "" := fun h => hla (by rw [h])
      simp [buildNameKey, laTail, hs]

/-- The key's local-address tail is empty or colon-headed. -/
theorem laTail_shape (la : Option String) :
    laTail la = [] ∨ ∃ r, laTail la = ':' :: r := by
  cases la <;> simp [laTail]

/-- `nextIdleSocket` leaves the idle stacks of all other keys unchanged. -/
theorem nextIdleSocket_frame (usable : Socket → Bool) (st : AgentState) (name : String)
    (n : String) (hn : n ≠ name) :
    (nextIdleSocket usable st name).2.idleSockets n = st.idleSockets n := by
  cases hl : st.idleSockets name <;> simp [nextIdleSocket, hl, hn]

/-- `addRequest` leaves the idle stacks of all other keys unchanged. -/
theorem addRequest_frame (usable : Socket → Bool) (st : AgentState) (request : Nat)
    (host : String) (port : Nat) (la : Option String)
    (n : String) (hn : n ≠ buildNameKey host port la) :
    (addRequest usable st request host port la).1.idleSockets n = st.idleSockets n := by
  simp only [addRequest]
  split <;> exact nextIdleSocket_frame usable st _ n hn

/-- `free` leaves the idle stacks of all other keys unchanged. -/
theorem free_frame (usable : Socket → Bool) (st : AgentState) (socket : Socket)
    (host : String) (port : Nat) (la : Option String)
    (n : String) (hn : n ≠ buildNameKey host port la) :
    (free usable st socket host port la).1.idleSockets n = st.idleSockets n := by
  by_cases hU : usable socket = true
  · simp only [free]
    rw [if_pos hU]
    dsimp only
    split
    · simp [hn]
    · rw [addRequest_frame _ _ _ _ _ _ n hn]
      simp [hn]
  · simp only [free]
    rw [if_neg hU]
    dsimp only
    split
    · rfl
    · rw [addRequest_frame _ _ _ _ _ _ n hn]

/-- C8 (amended): the destination key is `host ':' port` (port printed in
decimal), extended with `':' localAddress` exactly when a nonempty local
address is given; sockets are bucketed strictly by key — `acquire` only
returns sockets from the key's own stack and `free` only writes the key's own
stack, so requests with different keys never share a socket — and, provided
hosts contain no `':'` and local addresses are nonempty when given, equal
keys imply equal host, port and local address. -/
theorem buildNameKey_correct :
    (∀ host : String, ∀ port : Nat,
        buildNameKey host port none = host ++ ":" ++ Nat.repr port)
    ∧ (∀ host : String, ∀ port : Nat, ∀ la : String, la ≠ "" →
        buildNameKey host port (some la) = host ++ ":" ++ Nat.repr port ++ ":" ++ la)
    ∧ (∀ h1 h2 : String, ∀ p1 p2 : Nat, ∀ la1 la2 : Option String,
        (':' : Char) ∉ h1.data → (':' : Char) ∉ h2.data →
        la1 ≠ some "" → la2 ≠ some "" →
        buildNameKey h1 p1 la1 = buildNameKey h2 p2 la2 →
        h1 = h2 ∧ p1 = p2 ∧ la1 = la2)
    ∧ (∀ usable st name s, (nextIdleSocket usable st name).1 = some s →
        s ∈ (st.idleSockets name).getD [])
    ∧ (∀ usable st socket host port la n, n ≠ buildNameKey host port la →
        (free usable st socket host port la).1.idleSockets n = st.idleSockets n) := by
  refine ⟨fun host port => rfl, fun host port la hla => by simp [buildNameKey, hla],
    ?_, ?_, fun usable st socket host port la n hn =>
      free_frame usable st socket host port la n hn⟩
  · intro h1 h2 p1 p2 la1 la2 hc1 hc2 hn1 hn2 heq
    have heqd := congrArg String.data heq
    rw [buildNameKey_data h1 p1 la1 hn1, buildNameKey_data h2 p2 la2 hn2] at heqd
    obtain ⟨hh, hrest⟩ := colon_split h1.data h2.data hc1 hc2 heqd
    have hhost : h1 = h2 := congrArg String.mk hh
    obtain ⟨hd, ht⟩ := digits_split (Nat.repr p1).data (Nat.repr p2).data
      (fun c hc => repr_isDigit p1 c hc) (fun c hc => repr_isDigit p2 c hc)
      (laTail_shape la1) (laTail_shape la2) hrest
    have hport : p1 = p2 := repr_injective (congrArg String.mk hd)
    refine ⟨hhost, hport, ?_⟩
    cases la1 with
    | none =>
        cases la2 with
        | none => rfl
        | some s2 => simp [laTail] at ht
    | some s1 =>
        cases la2 with
        | none => simp [laTail] at ht
        | some s2 =>
            simp only [laTail, List.cons.injEq, true_and] at ht
            exact congrArg (fun d => some (String.mk d)) ht
  · intro usable st name s hs
    cases hl : st.idleSockets name with
    | none => simp [nextIdleSocket, hl] at hs
    | some l =>
        simp only [nextIdleSocket, hl, popLoop_eq] at hs
        have hmem := List.mem_of_find?_eq_some hs
        simpa using hmem

/-- Witness for C8 (amended) at concrete inputs: a colon-free host, a port
and a nonempty local address are recovered from the key. -/
theorem buildNameKey_correct_witness :
    ("h" : String) = "h" ∧ (80 : Nat) = 80 ∧ (some "l" : Option String) = some "l" :=
  buildNameKey_correct.2.2.1 "h" "h" 80 80 (some "l") (some "l")
    (by decide) (by decide) (by decide) (by decide) rfl

/-- C8 as frozen is false on the code: the key does not determine host, port
and local address when the host contains a colon — `buildNameKey "a:1" 2
none` and `buildNameKey "a" 1 (some "2")` are the same key `"a:1:2"` although
host, port and local address all differ — and an empty (falsy) local address
is given yet not appended: `buildNameKey "a" 1 (some "")` equals
`buildNameKey "a" 1 none`. -/
theorem buildNameKey_counterexample :
    buildNameKey "a:1" 2 none = buildNameKey "a" 1 (some "2")
    ∧ ("a:1" : String) ≠ "a"
    ∧ buildNameKey "a" 1 (some "") = buildNameKey "a" 1 none
    ∧ (some "" : Option String) ≠ none := by
  refine ⟨by decide, by decide, by decide, by decide⟩

end Wreck
